import Mathlib

/-
Verification of the VeriMinutes core against its specification.

This file gives a shallow embedding, in Lean 4, of the verification core of
the VeriMinutes repository:

  * src/app/merkle.py   — chunked Merkle tree builder, inclusion proofs,
                          proof verification (class MerkleTree);
  * src/app/hashing.py  — dual-hash + Ed25519 credential signer/verifier over
                          canonical JSON (class HashingService);
  * src/app/storage.py  — manifest management (StorageService.create_manifest,
                          StorageService.update_manifest);
  * src/app/service.py  — the verification orchestrator
                          (VeriMinutesService.verify_artifacts).

Files are modelled as lists of bytes (Nat values below 256); a missing file is
`none`.  Python exceptions that the sources catch are modelled by `Option`
results (`none` = the operation raised), and functions whose sources swallow
exceptions are total and return the value the handler produces.  SHA-256 is
implemented in full (hashlib.sha256); BLAKE3 and the Ed25519 primitive are
external C libraries, so they enter as parameters (`b3`, `SigScheme`), the
latter carrying exactly the properties the library guarantees.
-/

namespace VM

/- ===================== SHA-256 (hashlib.sha256) ===================== -/

/-- Truncation to a 32-bit word; SHA-256 works on 32-bit modular arithmetic. -/
def w32 (n : Nat) : Nat := n % 4294967296

/-- Rotate a 32-bit word right by `n` bits. -/
def rotr (n x : Nat) : Nat := w32 ((x >>> n) ||| (x <<< (32 - n)))

/-- Logical right shift. -/
def shr (n x : Nat) : Nat := x >>> n

/-- Bitwise complement within 32 bits. -/
def bnot32 (x : Nat) : Nat := x ^^^ 4294967295

/-- The 64 SHA-256 round constants, written in decimal. -/
def sha256K : List Nat :=
  [1116352408, 1899447441, 3049323471, 3921009573, 961987163,
   1508970993, 2453635748, 2870763221, 3624381080, 310598401,
   607225278, 1426881987, 1925078388, 2162078206, 2614888103,
   3248222580, 3835390401, 4022224774, 264347078, 604807628,
   770255983, 1249150122, 1555081692, 1996064986, 2554220882,
   2821834349, 2952996808, 3210313671, 3336571891, 3584528711,
   113926993, 338241895, 666307205, 773529912, 1294757372,
   1396182291, 1695183700, 1986661051, 2177026350, 2456956037,
   2730485921, 2820302411, 3259730800, 3345764771, 3516065817,
   3600352804, 4094571909, 275423344, 430227734, 506948616,
   659060556, 883997877, 958139571, 1322822218, 1537002063,
   1747873779, 1955562222, 2024104815, 2227730452, 2361852424,
   2428436474, 2756734187, 3204031479, 3329325298]

/-- The SHA-256 initial hash state, written in decimal. -/
def sha256Init : List Nat :=
  [1779033703, 3144134277, 1013904242, 2773480762,
   1359893119, 2600822924, 528734635, 1541459225]

/-- SHA-256 padding: append 0x80, zeros to 56 mod 64, then the 8-byte
big-endian bit length. -/
def padMessage (msg : List Nat) : List Nat :=
  let len := msg.length
  let zeros := (119 - len % 64) % 64
  let bitLen := len * 8
  msg ++ [128] ++ List.replicate zeros 0 ++
    [bitLen >>> 56 % 256, bitLen >>> 48 % 256, bitLen >>> 40 % 256,
     bitLen >>> 32 % 256, bitLen >>> 24 % 256, bitLen >>> 16 % 256,
     bitLen >>> 8 % 256, bitLen % 256]

/-- Split a byte list into 64-byte blocks (fuel-driven; the padded input has
length a multiple of 64, and the fuel `l.length` always suffices). -/
def toBlocksAux : Nat → List Nat → List (List Nat)
  | _, [] => []
  | 0, _ => []
  | fuel + 1, l => l.take 64 :: toBlocksAux fuel (l.drop 64)

/-- Split a byte list into 64-byte blocks. -/
def toBlocks (l : List Nat) : List (List Nat) := toBlocksAux l.length l

/-- Big-endian 4-byte groups to 32-bit words. -/
def bytesToWords : List Nat → List Nat
  | b0 :: b1 :: b2 :: b3 :: rest =>
      (b0 * 16777216 + b1 * 65536 + b2 * 256 + b3) :: bytesToWords rest
  | _ => []

/-- 32-bit words to big-endian bytes. -/
def wordsToBytes (ws : List Nat) : List Nat :=
  ws.flatMap (fun w => [w >>> 24 % 256, w >>> 16 % 256, w >>> 8 % 256, w % 256])

/-- Small sigma-0 of the SHA-256 message schedule. -/
def ssig0 (x : Nat) : Nat := rotr 7 x ^^^ rotr 18 x ^^^ shr 3 x

/-- Small sigma-1 of the SHA-256 message schedule. -/
def ssig1 (x : Nat) : Nat := rotr 17 x ^^^ rotr 19 x ^^^ shr 10 x

/-- Big sigma-0 of the SHA-256 compression function. -/
def bsig0 (x : Nat) : Nat := rotr 2 x ^^^ rotr 13 x ^^^ rotr 22 x

/-- Big sigma-1 of the SHA-256 compression function. -/
def bsig1 (x : Nat) : Nat := rotr 6 x ^^^ rotr 11 x ^^^ rotr 25 x

/-- One extension step of the message schedule. -/
def scheduleStep (ws : List Nat) : List Nat :=
  let n := ws.length
  let g := fun i => ws.getD (n - i) 0
  ws ++ [w32 (g 16 + ssig0 (g 15) + g 7 + ssig1 (g 2))]

/-- Extend the 16 block words to the 64 schedule words. -/
def schedule (ws : List Nat) : List Nat :=
  (List.range 48).foldl (fun acc _ => scheduleStep acc) ws

/-- One compression round on the eight working registers. -/
def shaRound (st : List Nat) (kw : Nat) : List Nat :=
  match st with
  | [a, b, c, d, e, f, g, h] =>
      let t1 := w32 (h + bsig1 e + ((e &&& f) ^^^ (bnot32 e &&& g)) + kw)
      let t2 := w32 (bsig0 a + ((a &&& b) ^^^ (a &&& c) ^^^ (b &&& c)))
      [w32 (t1 + t2), a, b, c, w32 (d + t1), e, f, g]
  | other => other

/-- Compress one 64-byte block into the hash state. -/
def compressBlock (st : List Nat) (block : List Nat) : List Nat :=
  let ws := schedule (bytesToWords block)
  let kws := sha256K.zipWith (fun k w => w32 (k + w)) ws
  let out := kws.foldl shaRound st
  st.zipWith (fun x y => w32 (x + y)) out

/-- SHA-256 digest (32 bytes) of a byte list. -/
def sha256 (msg : List Nat) : List Nat :=
  wordsToBytes ((toBlocks (padMessage msg)).foldl compressBlock sha256Init)

/- ===================== hex encoding / decoding ===================== -/

/-- Lowercase hex digit for a value below 16. -/
def hexDigitChar (n : Nat) : Char :=
  if n < 10 then Char.ofNat (48 + n) else Char.ofNat (87 + n)

/-- Lowercase hex characters of a byte list (two digits per byte). -/
def hexChars (bs : List Nat) : List Char :=
  bs.flatMap (fun b => [hexDigitChar (b / 16), hexDigitChar (b % 16)])

/-- Lowercase hex string of a byte list, as Python's hexdigest produces. -/
def hexEncodeBytes (bs : List Nat) : String := ⟨hexChars bs⟩

/-- SHA-256 hexdigest, hashlib.sha256(msg).hexdigest(). -/
def sha256hex (msg : List Nat) : String := hexEncodeBytes (sha256 msg)

/-- Value of one hex digit (Python bytes.fromhex accepts both cases). -/
def hexVal (c : Char) : Option Nat :=
  if 48 ≤ c.toNat ∧ c.toNat ≤ 57 then some (c.toNat - 48)
  else if 97 ≤ c.toNat ∧ c.toNat ≤ 102 then some (c.toNat - 87)
  else if 65 ≤ c.toNat ∧ c.toNat ≤ 70 then some (c.toNat - 55)
  else none

/-- Parse hex characters pairwise; `none` models the ValueError that
bytes.fromhex raises on a malformed string. -/
def fromHexChars : List Char → Option (List Nat)
  | [] => some []
  | [_] => none
  | c1 :: c2 :: rest =>
      match hexVal c1, hexVal c2, fromHexChars rest with
      | some hi, some lo, some bs => some ((16 * hi + lo) :: bs)
      | _, _, _ => none

/-- Python bytes.fromhex, with `none` for the raising cases. -/
def fromHex (s : String) : Option (List Nat) := fromHexChars s.data

/- ===================== MerkleTree (src/app/merkle.py) ===================== -/

/-- Run an Option-valued function over a list, failing if any element fails;
this models a Python loop in which any iteration may raise. -/
def omapM (f : α → Option β) : List α → Option (List β)
  | [] => some []
  | a :: l =>
      match f a, omapM f l with
      | some b, some bs => some (b :: bs)
      | _, _ => none

/-- MerkleTree._hash_chunk: SHA-256 hexdigest of a chunk. -/
def hash_chunk (chunk : List Nat) : String := sha256hex chunk

/-- MerkleTree._hash_pair: hex-decode both nodes, concatenate the raw digests,
hash, hex-encode; `none` models the ValueError of bytes.fromhex. -/
def hash_pair (left right : String) : Option String :=
  match fromHex left, fromHex right with
  | some lb, some rb => some (sha256hex (lb ++ rb))
  | _, _ => none

/-- Fuel-driven chunk splitter; with positive chunk size the fuel
`data.length` always suffices, reproducing `data[i:i+chunk_size]` slicing. -/
def chunkAux (cs : Nat) : Nat → List Nat → List (List Nat)
  | _, [] => []
  | 0, _ => []
  | fuel + 1, d => d.take cs :: chunkAux cs fuel (d.drop cs)

/-- MerkleTree._chunk_data: split into chunks of `cs` bytes; an empty input
yields one empty chunk. -/
def chunk_data (cs : Nat) (data : List Nat) : List (List Nat) :=
  let chunks := chunkAux cs data.length data
  if chunks = [] then [[]] else chunks

/-- One pass of the `while len(current_level) > 1` loop body of
MerkleTree._build_tree: `for i in range(0, len(current_level), 2)`, hashing
`(current_level[i], current_level[i+1])`, or the node with itself when `i+1`
is out of range. -/
def levelUp (lvl : List String) : Option (List String) :=
  omapM
    (fun i =>
      if i + 1 < lvl.length then hash_pair (lvl.getD i "") (lvl.getD (i + 1) "")
      else hash_pair (lvl.getD i "") (lvl.getD i ""))
    (List.range' 0 ((lvl.length + 1) / 2) 2)

/-- Iterate `levelUp` while the level has more than one node, collecting the
levels strictly above the leaves; the fuel `leaves.length` always suffices
because each level is at most half the previous one. -/
def buildLevelsAux : Nat → List String → Option (List (List String))
  | 0, _ => some []
  | fuel + 1, current =>
      if current.length > 1 then
        match levelUp current with
        | some nxt =>
            match buildLevelsAux fuel nxt with
            | some rest => some (nxt :: rest)
            | none => none
        | none => none
      else some []

/-- MerkleTree._build_tree: returns the level list (leaves first) and the
root.  No leaves give root `""`; a single leaf is its own root with no
internal levels. -/
def build_tree (leaves : List String) : Option (List (List String) × String) :=
  match leaves with
  | [] => some ([], "")
  | [l] => some ([[l]], l)
  | _ =>
      match buildLevelsAux leaves.length leaves with
      | some lvls =>
          some (leaves :: lvls, ((leaves :: lvls).getLastD []).headD "")
      | none => none

/-- The per-level loop of MerkleTree._generate_inclusion_proof: at each level
an even index records offset "right" with sibling index+1, an odd one records
"left" with sibling index-1; an out-of-range sibling is the node itself; the
index halves at each level.  Returns (sibling, offset) pairs. -/
def genSteps : List (List String) → Nat → List (String × String)
  | [], _ => []
  | lvl :: rest, idx =>
      let off := if idx % 2 = 0 then "right" else "left"
      let sibIdx := if idx % 2 = 0 then idx + 1 else idx - 1
      let sib := if sibIdx < lvl.length then lvl.getD sibIdx "" else lvl.getD idx ""
      (sib, off) :: genSteps rest (idx / 2)

/-- The inclusion-proof record `{leafIndex, offsets, siblings}`. -/
structure InclusionProof where
  leafIndex : Nat
  offsets : List String
  siblings : List String
  deriving DecidableEq

/-- MerkleTree._generate_inclusion_proof; `none` models the empty dict
returned for an out-of-range leaf index. -/
def generate_inclusion_proof (leaves : List String) (tree : List (List String))
    (leafIndex : Nat) : Option InclusionProof :=
  if leaves.length ≤ leafIndex then none
  else
    let steps := genSteps tree.dropLast leafIndex
    some { leafIndex := leafIndex,
           offsets := steps.map Prod.snd,
           siblings := steps.map Prod.fst }

/-- The result dictionary of MerkleTree.build_from_file. -/
structure MerkleResult where
  docPath : String
  chunkSize : Nat
  leafAlgo : String
  leaves : List String
  merkleRoot : String
  inclusion : Option InclusionProof
  deriving DecidableEq

/-- MerkleTree.build_from_file over the file's bytes.  `none` models a raised
exception: a zero chunk size (`range` with step 0 raises ValueError) or a
hashing failure while building the tree. -/
def build_from_file (cs : Nat) (docName : String) (data : List Nat) :
    Option MerkleResult :=
  if cs = 0 then none
  else
    let leaves := (chunk_data cs data).map hash_chunk
    match build_tree leaves with
    | some (tree, root) =>
        some { docPath := docName, chunkSize := cs, leafAlgo := "sha256",
               leaves := leaves, merkleRoot := root,
               inclusion :=
                 if leaves = [] then none
                 else generate_inclusion_proof leaves tree 0 }
    | none => none

/-- The replay loop of MerkleTree.verify_inclusion over (sibling, offset)
pairs; `none` models a raised exception inside the loop, which the
surrounding `try` converts to `False`. -/
def replaySteps : List (String × String) → String → Option String
  | [], current => some current
  | (sib, off) :: rest, current =>
      match (if off = "right" then hash_pair current sib else hash_pair sib current) with
      | some nxt => replaySteps rest nxt
      | none => none

/-- MerkleTree.verify_inclusion: replay `zip(siblings, offsets)` from the
leaf and compare with the root; any exception yields `False`. -/
def verify_inclusion (leaf : String) (proof : InclusionProof) (root : String) : Bool :=
  match replaySteps (proof.siblings.zip proof.offsets) leaf with
  | some current => current == root
  | none => false

/-- A stored proof packet as consumed by MerkleTree.verify_proof. -/
structure MerkleProofIn where
  docPath : String
  chunkSize : Nat
  leafAlgo : String
  leaves : List String
  merkleRoot : String
  inclusion : Option InclusionProof
  deriving DecidableEq

/-- MerkleTree.verify_proof: rebuild a fresh tree from the file with the
proof's chunkSize and compare roots; a missing file or any raised exception
yields `False`. -/
def verify_proof (file : Option (List Nat)) (proof : MerkleProofIn) : Bool :=
  match file with
  | none => false
  | some data =>
      match build_from_file proof.chunkSize "" data with
      | some result => result.merkleRoot == proof.merkleRoot
      | none => false

/- ========== spec-side Merkle builder (for the refinement claim) ========== -/

/-- Modelled from the spec: the pair of nodes `(2i, 2i+1)` of a level, the
last node of an odd-length level being paired with itself. -/
def specPairAt (lvl : List String) (i : Nat) : String × String :=
  (lvl.getD (2 * i) "",
   if 2 * i + 1 < lvl.length then lvl.getD (2 * i + 1) "" else lvl.getD (2 * i) "")

/-- Modelled from the spec: one level-by-level step, hashing the pairs
`(2i, 2i+1)` for `i` ranging over the parent level's indices. -/
def specLevelUp (lvl : List String) : Option (List String) :=
  omapM (fun i => hash_pair (specPairAt lvl i).1 (specPairAt lvl i).2)
    (List.range ((lvl.length + 1) / 2))

/-- Modelled from the spec: iterate the spec-side level step until one node
remains. -/
def specBuildLevelsAux : Nat → List String → Option (List (List String))
  | 0, _ => some []
  | fuel + 1, current =>
      if current.length > 1 then
        match specLevelUp current with
        | some nxt =>
            match specBuildLevelsAux fuel nxt with
            | some rest => some (nxt :: rest)
            | none => none
        | none => none
      else some []

/-- Modelled from the spec: the level-by-level tree builder; a single-leaf
tree has root `leaves[0]` and no internal levels. -/
def spec_build_tree (leaves : List String) : Option (List (List String) × String) :=
  match leaves with
  | [] => some ([], "")
  | [l] => some ([[l]], l)
  | _ =>
      match specBuildLevelsAux leaves.length leaves with
      | some lvls =>
          some (leaves :: lvls, ((leaves :: lvls).getLastD []).headD "")
      | none => none

/-- The chain property of the built tree: every level after the first is the
`levelUp` image of its predecessor. -/
inductive Chain : List (List String) → Prop
  | single (lvl : List String) : Chain [lvl]
  | cons (lvl nxt : List String) (rest : List (List String)) :
      levelUp lvl = some nxt → Chain (nxt :: rest) → Chain (lvl :: nxt :: rest)

/- ===================== base64 (base64.b64encode / b64decode) ============= -/

/-- The standard base64 alphabet. -/
def b64Alphabet : List Char :=
  "ABCDEFGHIJKLMNOPQRSTUVWXYZabcdefghijklmnopqrstuvwxyz0123456789+/".data

/-- Character for a 6-bit value. -/
def b64CharOf (n : Nat) : Char := b64Alphabet.getD n 'A'

/-- Encode bytes in 3-byte groups, padding the final partial group. -/
def b64EncodeGroups : List Nat → List Char
  | [] => []
  | [b0] => [b64CharOf (b0 / 4), b64CharOf (b0 % 4 * 16), '=', '=']
  | [b0, b1] =>
      [b64CharOf (b0 / 4), b64CharOf (b0 % 4 * 16 + b1 / 16),
       b64CharOf (b1 % 16 * 4), '=']
  | b0 :: b1 :: b2 :: rest =>
      b64CharOf (b0 / 4) :: b64CharOf (b0 % 4 * 16 + b1 / 16) ::
      b64CharOf (b1 % 16 * 4 + b2 / 64) :: b64CharOf (b2 % 64) ::
      b64EncodeGroups rest

/-- base64.b64encode of a byte string, decoded to ASCII. -/
def b64encode (bs : List Nat) : String := ⟨b64EncodeGroups bs⟩

/-- Value of one base64 character. -/
def b64Val (c : Char) : Option Nat :=
  if 65 ≤ c.toNat ∧ c.toNat ≤ 90 then some (c.toNat - 65)
  else if 97 ≤ c.toNat ∧ c.toNat ≤ 122 then some (c.toNat - 71)
  else if 48 ≤ c.toNat ∧ c.toNat ≤ 57 then some (c.toNat + 4)
  else if c = '+' then some 62
  else if c = '/' then some 63
  else none

/-- Decode base64 characters in 4-character groups, padding characters
allowed only in the final group; `none` models the binascii.Error raised on
malformed input. -/
def b64DecodeGroups : List Char → Option (List Nat)
  | [] => some []
  | c0 :: c1 :: c2 :: c3 :: rest =>
      if c2 = '=' ∧ c3 = '=' ∧ rest = [] then
        match b64Val c0, b64Val c1 with
        | some v0, some v1 => some [v0 * 4 + v1 / 16]
        | _, _ => none
      else if c3 = '=' ∧ rest = [] then
        match b64Val c0, b64Val c1, b64Val c2 with
        | some v0, some v1, some v2 =>
            some [v0 * 4 + v1 / 16, v1 % 16 * 16 + v2 / 4]
        | _, _, _ => none
      else
        match b64Val c0, b64Val c1, b64Val c2, b64Val c3, b64DecodeGroups rest with
        | some v0, some v1, some v2, some v3, some bs =>
            some ((v0 * 4 + v1 / 16) :: (v1 % 16 * 16 + v2 / 4) ::
                  (v2 % 4 * 64 + v3) :: bs)
        | _, _, _, _, _ => none
  | _ => none

/-- base64.b64decode, with `none` for the raising cases. -/
def b64decode (s : String) : Option (List Nat) := b64DecodeGroups s.data

/- ===================== UTF-8 and canonical JSON ===================== -/

/-- UTF-8 bytes of one code point. -/
def utf8Char (n : Nat) : List Nat :=
  if n < 128 then [n]
  else if n < 2048 then [192 + n / 64, 128 + n % 64]
  else if n < 65536 then [224 + n / 4096, 128 + n / 64 % 64, 128 + n % 64]
  else [240 + n / 262144, 128 + n / 4096 % 64, 128 + n / 64 % 64, 128 + n % 64]

/-- UTF-8 encoding of a string, str.encode in Python. -/
def utf8Bytes (s : String) : List Nat := s.data.flatMap (fun c => utf8Char c.toNat)

/-- Four uppercase-free hex digits of a 16-bit value, for \u escapes. -/
def toHex4 (n : Nat) : List Char :=
  [hexDigitChar (n / 4096 % 16), hexDigitChar (n / 256 % 16),
   hexDigitChar (n / 16 % 16), hexDigitChar (n % 16)]

/-- Escaping of one character as json.dumps (ensure_ascii=True) performs it:
quote, backslash and the named control characters get two-character escapes,
every other character outside 0x20..0x7e becomes \u escapes (a surrogate
pair beyond the basic plane), the rest stay literal. -/
def jsonEscapeChar (c : Char) : List Char :=
  if c = '"' then ['\\', '"']
  else if c = '\\' then ['\\', '\\']
  else if c.toNat = 8 then ['\\', 'b']
  else if c.toNat = 12 then ['\\', 'f']
  else if c.toNat = 10 then ['\\', 'n']
  else if c.toNat = 13 then ['\\', 'r']
  else if c.toNat = 9 then ['\\', 't']
  else if c.toNat < 32 ∨ 126 < c.toNat then
    if c.toNat < 65536 then '\\' :: 'u' :: toHex4 c.toNat
    else ('\\' :: 'u' :: toHex4 (55296 + (c.toNat - 65536) / 1024)) ++
         ('\\' :: 'u' :: toHex4 (56320 + (c.toNat - 65536) % 1024))
  else [c]

/-- A JSON string literal as json.dumps writes it. -/
def jsonStr (s : String) : String := ⟨'"' :: (s.data.flatMap jsonEscapeChar ++ ['"'])⟩

/- ============ HashingService (src/app/hashing.py) ============ -/

/-- The signer sub-dictionary of a credential. -/
structure Signer where
  type : String
  publicKey : String
  deriving DecidableEq

/-- A credential as assembled by HashingService.create_credential.  The
`signature` key is absent (`none`) before signing; verify_credential pops it,
and a missing key there raises (modelled as `False` through the handler). -/
structure Credential where
  target : String
  sha256 : String
  blake3 : String
  size : Nat
  createdAt : String
  schema : String
  signer : Signer
  signature : Option String
  deriving DecidableEq

/-- The Ed25519 primitive of the external nacl library, as a parameter: a
deterministic signing function, a verifying function, and the public key of
a secret key, together with the properties the library guarantees: a
signature it produced verifies, signatures are 64 bytes, keys 32 bytes. -/
structure SigScheme where
  sign : List Nat → List Nat → List Nat
  verify : List Nat → List Nat → List Nat → Bool
  pubOf : List Nat → List Nat
  sign_verify : ∀ sk msg, verify (pubOf sk) msg (sign sk msg) = true
  sign_length : ∀ sk msg, (sign sk msg).length = 64
  sign_bytes : ∀ sk msg, ∀ b ∈ sign sk msg, b < 256
  pub_length : ∀ sk, (pubOf sk).length = 32
  pub_bytes : ∀ sk, ∀ b ∈ pubOf sk, b < 256

/-- HashingService.compute_sha256 (hexdigest). -/
def compute_sha256 (data : List Nat) : String := sha256hex data

/-- HashingService.compute_blake3 (hexdigest), over the external blake3
digest function `b3`. -/
def compute_blake3 (b3 : List Nat → List Nat) (data : List Nat) : String :=
  hexEncodeBytes (b3 data)

/-- HashingService.sign_data: sign raw bytes, base64 the signature. -/
def sign_data (scheme : SigScheme) (sk data : List Nat) : String :=
  b64encode (scheme.sign sk data)

/-- HashingService.get_public_key: base64 of the verify key bytes. -/
def get_public_key (scheme : SigScheme) (sk : List Nat) : String :=
  b64encode (scheme.pubOf sk)

/-- HashingService.verify_signature: decode the base64 signature and public
key, build the verify key (32 bytes required), check the 64-byte signature;
any failure yields `False`, never an exception. -/
def verify_signature (scheme : SigScheme) (data : List Nat)
    (sigB64 pkB64 : String) : Bool :=
  match b64decode sigB64, b64decode pkB64 with
  | some sig, some pk =>
      if pk.length = 32 then
        if sig.length = 64 then scheme.verify pk data sig else false
      else false
  | _, _ => false

/-- The canonical serialization of the signer dictionary: keys sorted,
separators (",", ":"). -/
def canonicalSigner (s : Signer) : String :=
  "\x7b\"publicKey\":" ++ jsonStr s.publicKey ++ ",\"type\":" ++ jsonStr s.type ++ "\x7d"

/-- The canonical serialization json.dumps(credential, sort_keys=True,
separators=(",", ":")) of a credential without its signature key: keys in
sorted order blake3, createdAt, schema, sha256, signer, size, target. -/
def canonical_json (c : Credential) : String :=
  "\x7b\"blake3\":" ++ jsonStr c.blake3 ++
  ",\"createdAt\":" ++ jsonStr c.createdAt ++
  ",\"schema\":" ++ jsonStr c.schema ++
  ",\"sha256\":" ++ jsonStr c.sha256 ++
  ",\"signer\":" ++ canonicalSigner c.signer ++
  ",\"size\":" ++ toString c.size ++
  ",\"target\":" ++ jsonStr c.target ++ "\x7d"

/-- HashingService.create_credential over the target file's bytes: compute
both hashes and the size, assemble all fields except signature, canonically
serialize, sign the UTF-8 bytes, append the signature. -/
def create_credential (scheme : SigScheme) (b3 : List Nat → List Nat)
    (sk : List Nat) (now targetName schemaName : String) (data : List Nat) :
    Credential :=
  let pre : Credential :=
    { target := targetName,
      sha256 := compute_sha256 data,
      blake3 := compute_blake3 b3 data,
      size := data.length,
      createdAt := now,
      schema := schemaName,
      signer := { type := "ed25519", publicKey := get_public_key scheme sk },
      signature := none }
  { pre with signature := some (sign_data scheme sk (utf8Bytes (canonical_json pre))) }

/-- HashingService.verify_credential against the target file's current bytes
(`none` = the file is missing, FileNotFoundError): recompute sha256, blake3
and size and require exact equality, then pop the signature, recanonicalize
and verify against the embedded public key; any failure or exception yields
`False`. -/
def verify_credential (scheme : SigScheme) (b3 : List Nat → List Nat)
    (c : Credential) (file : Option (List Nat)) : Bool :=
  match file with
  | none => false
  | some data =>
      if c.sha256 ≠ compute_sha256 data ∨ c.blake3 ≠ compute_blake3 b3 data ∨
         c.size ≠ data.length then false
      else
        match c.signature with
        | none => false
        | some sig =>
            verify_signature scheme (utf8Bytes (canonical_json c)) sig
              c.signer.publicKey

/- ============ StorageService manifest (src/app/storage.py) ============ -/

/-- An artifact record of the manifest, as a Python dict: an
insertion-ordered association list with unique keys. -/
abbrev JDict := List (String × String)

/-- Python dict lookup `d.get(k)`. -/
def dget (d : JDict) (k : String) : Option String :=
  match d with
  | [] => none
  | (k2, v) :: rest => if k2 = k then some v else dget rest k

/-- Python dict assignment `d[k] = v`: replace in place if present, else
append. -/
def dset (d : JDict) (k v : String) : JDict :=
  match d with
  | [] => [(k, v)]
  | (k2, v2) :: rest => if k2 = k then (k2, v) :: rest else (k2, v2) :: dset rest k v

/-- Python dict.update, key by key. -/
def dictUpdate (d m : JDict) : JDict := m.foldl (fun acc kv => dset acc kv.1 kv.2) d

/-- The session manifest. -/
structure Manifest where
  slug : String
  createdAt : String
  updatedAt : String
  artifacts : List JDict
  deriving DecidableEq

/-- StorageService.create_manifest: a fresh manifest with empty artifacts,
keeping only createdAt from an existing manifest on disk (`existing`). -/
def create_manifest (slug now : String) (existing : Option Manifest) : Manifest :=
  { slug := slug,
    createdAt :=
      match existing with
      | some e => e.createdAt
      | none => now,
    updatedAt := now,
    artifacts := [] }

/-- StorageService.update_manifest: rebuild the manifest via create_manifest,
drop entries carrying the given fileName, append the fresh entry (the base
fields merged with the metadata dict), bump updatedAt.  The returned manifest
is what gets persisted. -/
def update_manifest (slug artifactType fileName : String) (metadata : JDict)
    (now sessionDir : String) (existing : Option Manifest) : Manifest :=
  let m := create_manifest slug now existing
  let entry :=
    dictUpdate
      [("type", artifactType), ("fileName", fileName),
       ("path", sessionDir ++ "/" ++ fileName), ("createdAt", now)]
      metadata
  { m with
    artifacts :=
      (m.artifacts.filter (fun a => dget a "fileName" ≠ some fileName)) ++ [entry],
    updatedAt := now }

/- ============ VeriMinutesService.verify_artifacts (src/app/service.py) ===== -/

/-- The VerificationResult schema. -/
structure VerificationResult where
  valid : Bool
  localRoot : String
  onChainRoot : Option String
  docHash : String
  txHash : Option String
  deriving DecidableEq

/-- The on-disk state verify_artifacts reads for a session: the parsed
minutes.cred.json and minutes.proof.json artifacts (`none` = missing or
malformed, read_artifact or json parsing raised), the raw bytes of
minutes.json (`none` = missing), and the read of anchor_receipt.json
(`none` = the read raised; otherwise the receipt's txHash value). -/
structure SessionFiles where
  minutesCred : Option Credential
  minutesProof : Option MerkleProofIn
  minutes : Option (List Nat)
  anchorReceiptTx : Option (Option String)
  deriving DecidableEq

/-- VeriMinutesService.verify_artifacts: check the stored credential and the
stored Merkle proof against the on-disk minutes document, `valid` being their
conjunction; when anchoring is enabled, additionally try to read the receipt
and cross-check on chain, ignoring every failure there; any exception
escaping to verify_artifacts itself produces the all-empty invalid result.
`anchorVerify` is the external AnchorService.verify_anchor collaborator. -/
def verify_artifacts (scheme : SigScheme) (b3 : List Nat → List Nat)
    (anchorEnabled : Bool) (anchorVerify : String → Option String → Option String)
    (files : SessionFiles) : VerificationResult :=
  match files.minutesCred, files.minutesProof with
  | some cred, some proof =>
      let credValid := verify_credential scheme b3 cred files.minutes
      let proofValid := verify_proof files.minutes proof
      let anchored : Option String × Option String :=
        if anchorEnabled then
          match files.anchorReceiptTx with
          | some tx => (anchorVerify proof.merkleRoot tx, tx)
          | none => (none, none)
        else (none, none)
      { valid := credValid && proofValid,
        localRoot := proof.merkleRoot,
        onChainRoot := anchored.1,
        docHash := cred.sha256,
        txHash := anchored.2 }
  | _, _ =>
      { valid := false, localRoot := "", onChainRoot := none, docHash := "",
        txHash := none }

/- ============ concrete instances used by witnesses ============ -/

/-- A degenerate instance of the Ed25519 interface, used only to instantiate
universally quantified statements at a concrete scheme. -/
def constSig : SigScheme where
  sign := fun _ _ => List.replicate 64 0
  verify := fun _ _ _ => true
  pubOf := fun _ => List.replicate 32 0
  sign_verify := fun _ _ => rfl
  sign_length := fun _ _ => List.length_replicate 64 0
  sign_bytes := fun _ _ b hb => by
    have := List.eq_of_mem_replicate hb
    omega
  pub_length := fun _ => List.length_replicate 32 0
  pub_bytes := fun _ b hb => by
    have := List.eq_of_mem_replicate hb
    omega

/-- A degenerate instance of the blake3 digest, used only by witnesses. -/
def zeroB3 : List Nat → List Nat := fun _ => List.replicate 32 0

/-- Placeholder result used as the default of Option.getD in witnesses. -/
def mrDefault : MerkleResult := ⟨"", 0, "", [], "", none⟩

/-- The tree built from the three-byte file [0, 1, 2] with chunk size 1 (three
leaves, so one level self-pairs its odd last node). -/
def c7res : MerkleResult := (build_from_file 1 "minutes.json" [0, 1, 2]).getD mrDefault

/-- The inclusion proof for leaf 0 of that tree. -/
def c7proof : InclusionProof := c7res.inclusion.getD ⟨0, [], []⟩

/-- The tree built from the one-byte file [0] with chunk size 1. -/
def c6res : MerkleResult := (build_from_file 1 "" [0]).getD mrDefault

/-- A proof packet carrying that tree's root. -/
def c6p : MerkleProofIn := ⟨"minutes.json", 1, "sha256", c6res.leaves, c6res.merkleRoot, c6res.inclusion⟩

/-- The 64-character all-zero string of the Merkle tamper check. -/
def zeros64 : String :=
  "0000000000000000000000000000000000000000000000000000000000000000"

/-- A stored credential whose hash fields are concrete non-empty strings. -/
def cxCred : Credential :=
  ⟨"minutes.json", "deadbeef", "feedbead", 4, "2025-01-01T00:00:00Z",
   "BoardMinutes_v1", ⟨"ed25519", "cGs="⟩, some "c2ln"⟩

/-- A stored proof packet whose merkleRoot is a concrete non-empty string. -/
def cxProof : MerkleProofIn := ⟨"minutes.json", 65536, "sha256", [], "feedface", none⟩

/-- A session whose credential and proof artifacts are present and parse, but
whose minutes.json file is missing from disk. -/
def cxFiles : SessionFiles := ⟨some cxCred, some cxProof, none, none⟩

/-- A session with all artifacts present (minutes.json holding one byte). -/
def wFiles : SessionFiles := ⟨some cxCred, some cxProof, some [7], some none⟩

/-- A packet that agrees with c6p on chunkSize and merkleRoot but has had its
docPath, leafAlgo, leaves and inclusion path all tampered with. -/
def c9tampered : MerkleProofIn :=
  ⟨"other.json", 1, "blake3", ["junkleaf1", "junkleaf2"], c6res.merkleRoot,
   some ⟨5, ["left"], ["junksib"]⟩⟩

/-- The manifest persisted after recording the normalized transcript in a
fresh session, as VeriMinutesService.ingest_transcript does. -/
def demoManifest1 : Manifest :=
  update_manifest "2025-01-01" "transcript" "transcript.normalized.json"
    [("schema", "Transcript_v1")] "2025-01-01T10:00:00Z" "output/2025-01-01" none

/-- The manifest persisted after the next update_manifest call, recording
minutes.json, with the first manifest on disk. -/
def demoManifest2 : Manifest :=
  update_manifest "2025-01-01" "minutes" "minutes.json" []
    "2025-01-01T10:05:00Z" "output/2025-01-01" (some demoManifest1)

/- ===================== theorems ===================== -/

/-- Every call to chunk_data yields at least one chunk. -/
theorem chunk_data_ne_nil (cs : Nat) (data : List Nat) : chunk_data cs data ≠ [] := by
  unfold chunk_data
  by_cases h : chunkAux cs data.length data = [] <;> simp [h]

/-- C9: the result of verifyProof depends only on the file's bytes and the
proof's chunkSize and merkleRoot fields; the leaves, inclusion, docPath and
leafAlgo fields play no role, so a packet whose leaves or inclusion path have
been tampered with still verifies as long as chunkSize and merkleRoot are
intact. -/
theorem C9_verify_proof_root_only (file : Option (List Nat)) (p q : MerkleProofIn)
    (hcs : p.chunkSize = q.chunkSize) (hroot : p.merkleRoot = q.merkleRoot) :
    verify_proof file p = verify_proof file q := by
  cases file with
  | none => rfl
  | some data => simp only [verify_proof, hcs, hroot]

/-- Witness for C9: a packet with tampered docPath, leafAlgo, leaves and
inclusion path verifies exactly like the intact packet. -/
theorem C9_witness : verify_proof (some [0]) c6p = verify_proof (some [0]) c9tampered :=
  C9_verify_proof_root_only (some [0]) c6p c9tampered rfl rfl

/-- C10: verifyInclusion replays exactly the pairs obtained by zipping the
proof's siblings with its offsets (extra elements of the longer list are
ignored, and the leafIndex field plays no role); a proof with empty siblings
and offsets is accepted precisely when the leaf equals the root. -/
theorem C10_verify_inclusion_zip :
    (∀ (leaf root : String) (i j : Nat) (offs sibs offs2 sibs2 : List String),
        sibs.zip offs = sibs2.zip offs2 →
        verify_inclusion leaf ⟨i, offs, sibs⟩ root =
          verify_inclusion leaf ⟨j, offs2, sibs2⟩ root) ∧
    (∀ (leaf root : String) (i : Nat),
        verify_inclusion leaf ⟨i, [], []⟩ root = true ↔ leaf = root) := by
  constructor
  · intro leaf root i j offs sibs offs2 sibs2 h
    simp only [verify_inclusion, h]
  · intro leaf root i
    simp [verify_inclusion, replaySteps]

/-- Witness for C10: an extra sibling beyond the end of the offsets list is
silently ignored, as is the leafIndex. -/
theorem C10_witness :
    verify_inclusion "x" ⟨0, ["right"], ["s", "junk"]⟩ "y" =
      verify_inclusion "x" ⟨7, ["right"], ["s"]⟩ "y" :=
  C10_verify_inclusion_zip.1 "x" "y" 0 7 ["right"] ["s", "junk"] ["right"] ["s"] rfl

/-- C6: verifyProof rebuilds a fresh tree from the file's bytes using the
chunk size taken from the proof and succeeds exactly when the recomputed root
equals the stored merkleRoot; replacing merkleRoot by the 64-character
all-zero string makes it fail whenever the true root is different. -/
theorem C6_verify_proof_root_equality (data : List Nat) (p : MerkleProofIn)
    (res : MerkleResult) (hbuild : build_from_file p.chunkSize "" data = some res)
    (hz : res.merkleRoot ≠ zeros64) :
    (verify_proof (some data) p = true ↔ res.merkleRoot = p.merkleRoot) ∧
    verify_proof (some data) { p with merkleRoot := zeros64 } = false := by
  constructor
  · simp [verify_proof, hbuild]
  · have hsame : ({ p with merkleRoot := zeros64 } : MerkleProofIn).chunkSize
        = p.chunkSize := rfl
    simp [verify_proof, hsame, hbuild, hz]

/-- Witness for C6, at the one-byte file [0] with chunk size 1. -/
theorem C6_witness :
    (verify_proof (some [0]) c6p = true ↔ c6res.merkleRoot = c6p.merkleRoot) ∧
    verify_proof (some [0]) { c6p with merkleRoot := zeros64 } = false :=
  C6_verify_proof_root_equality [0] c6p c6res (by rfl) (by decide)

/-- C8: on a zero-byte file, buildFromFile produces exactly one leaf, the
SHA-256 of the empty byte string, and a non-empty merkleRoot; moreover the
leaf list of any successful build is never empty. -/
theorem C8_empty_file (cs : Nat) (hcs : 0 < cs) :
    (∃ res, build_from_file cs "minutes.json" [] = some res ∧
        res.leaves = [sha256hex []] ∧ res.merkleRoot = sha256hex [] ∧
        res.merkleRoot ≠ "") ∧
    (∀ doc data res, build_from_file cs doc data = some res → res.leaves ≠ []) := by
  have hne : cs ≠ 0 := hcs.ne'
  constructor
  · refine ⟨{ docPath := "minutes.json", chunkSize := cs, leafAlgo := "sha256",
              leaves := [sha256hex []], merkleRoot := sha256hex [],
              inclusion := some ⟨0, [], []⟩ }, ?_, rfl, rfl, ?_⟩
    · simp only [build_from_file, if_neg hne]
      rfl
    · show sha256hex [] ≠ ""
      decide
  · intro doc data res h
    simp only [build_from_file, if_neg hne] at h
    rcases hbt : build_tree ((chunk_data cs data).map hash_chunk) with _ | ⟨tree, root⟩ <;>
      rw [hbt] at h
    · exact absurd h (by simp)
    · obtain rfl : _ = res := Option.some.inj h
      simpa using chunk_data_ne_nil cs data

/-- Witness for C8, at the default chunk size 65536. -/
theorem C8_witness :
    ∃ res, build_from_file 65536 "minutes.json" [] = some res ∧
        res.leaves = [sha256hex []] ∧ res.merkleRoot = sha256hex [] ∧
        res.merkleRoot ≠ "" :=
  (C8_empty_file 65536 (by decide)).1

/-- omapM succeeds with a list of the same length. -/
theorem omapM_length {α β : Type} (f : α → Option β) :
    ∀ (l : List α) (bs : List β), omapM f l = some bs → bs.length = l.length
  | [], bs, h => by
      simp only [omapM] at h
      simp [← Option.some.inj h]
  | a :: l, bs, h => by
      simp only [omapM] at h
      rcases hfa : f a with _ | b <;> rw [hfa] at h
      · exact absurd h (by simp)
      · rcases hrest : omapM f l with _ | bs2 <;> rw [hrest] at h
        · exact absurd h (by simp)
        · obtain rfl := Option.some.inj h
          simp [omapM_length f l bs2 hrest]

/-- A successful levelUp halves the level, rounding up. -/
theorem levelUp_length (lvl nxt : List String) (h : levelUp lvl = some nxt) :
    nxt.length = (lvl.length + 1) / 2 := by
  have h2 := omapM_length _ _ _ h
  simpa using h2

/-- A successful levelUp of a non-empty level is non-empty, and its first
node is the pair hash of the level's first node with the sibling that
generate_inclusion_proof selects for index 0 (the second node, or the node
itself on a singleton level). -/
theorem levelUp_head : ∀ (x : String) (tail nxt : List String),
    levelUp (x :: tail) = some nxt →
    nxt ≠ [] ∧
    hash_pair x (if 1 < (x :: tail).length then (x :: tail).getD 1 "" else x) =
      some (nxt.getD 0 "")
  | x, [], nxt, h => by
      rcases hp : hash_pair x x with _ | v <;>
        simp [levelUp, omapM, List.range', hp] at h
      simp [← h, hp]
  | x, y :: t, nxt, h => by
      simp only [levelUp] at h
      have hk : ((x :: y :: t).length + 1) / 2 = (t.length + 1) / 2 + 1 := by
        simp only [List.length_cons]
        omega
      rw [hk, List.range'_succ] at h
      simp only [omapM] at h
      have hcond : (0 : Nat) + 1 < (x :: y :: t).length := by simp
      rw [if_pos hcond] at h
      simp only [List.getD_cons_zero, List.getD_cons_succ] at h
      rcases hp : hash_pair x y with _ | v <;> rw [hp] at h
      · exact absurd h (by simp)
      · rcases hr : omapM _ (List.range' (0 + 2) ((t.length + 1) / 2) 2)
            with _ | vs <;> rw [hr] at h
        · exact absurd h (by simp)
        · obtain rfl := Option.some.inj h
          refine ⟨by simp, ?_⟩
          have hcond2 : 1 < (x :: y :: t).length := by simp
          rw [if_pos hcond2]
          simpa using hp

/-- A successful run of the level loop yields a chain of levels whose last
level is a single node, provided the fuel covers the first level's length. -/
theorem buildLevelsAux_chain :
    ∀ (fuel : Nat) (lvl : List String) (lvls : List (List String)),
      buildLevelsAux fuel lvl = some lvls →
      1 ≤ lvl.length → lvl.length ≤ fuel + 1 →
      Chain (lvl :: lvls) ∧ ((lvl :: lvls).getLastD []).length = 1
  | 0, lvl, lvls, h, h1, h2 => by
      simp only [buildLevelsAux] at h
      obtain rfl := Option.some.inj h
      refine ⟨Chain.single lvl, ?_⟩
      have : (lvl :: ([] : List (List String))).getLastD [] = lvl := rfl
      rw [this]
      omega
  | fuel + 1, lvl, lvls, h, h1, h2 => by
      simp only [buildLevelsAux] at h
      by_cases hlen : lvl.length > 1
      · rw [if_pos hlen] at h
        rcases hlu : levelUp lvl with _ | nxt <;> simp only [hlu] at h
        · exact absurd h (by simp)
        · rcases hba : buildLevelsAux fuel nxt with _ | rest <;> simp only [hba] at h
          · exact absurd h (by simp)
          · obtain rfl := Option.some.inj h
            have hnl := levelUp_length lvl nxt hlu
            have ih := buildLevelsAux_chain fuel nxt rest hba (by omega) (by omega)
            refine ⟨Chain.cons lvl nxt rest hlu ih.1, ?_⟩
            have e1 : (lvl :: nxt :: rest).getLastD [] = (nxt :: rest).getLastD [] := by
              simp [List.getLastD_eq_getLast?]
            rw [e1]
            exact ih.2
      · rw [if_neg hlen] at h
        obtain rfl := Option.some.inj h
        refine ⟨Chain.single lvl, ?_⟩
        have : (lvl :: ([] : List (List String))).getLastD [] = lvl := rfl
        rw [this]
        omega

/-- A step of genSteps at index 0: offset "right", the sibling being the
second node of the level, or the first node itself on a singleton level. -/
theorem genSteps_cons_zero (lvl : List String) (L : List (List String)) :
    genSteps (lvl :: L) 0 =
      ((if 1 < lvl.length then lvl.getD 1 "" else lvl.getD 0 ""), "right") ::
        genSteps L 0 := by
  simp [genSteps]

/-- A replay step with offset "right" hashes the current node with the
sibling on the right. -/
theorem replaySteps_cons_right (sib : String) (more : List (String × String))
    (cur : String) :
    replaySteps ((sib, "right") :: more) cur =
      match hash_pair cur sib with
      | some nxt => replaySteps more nxt
      | none => none := by
  simp [replaySteps]

/-- Replaying the steps that generate_inclusion_proof collects for leaf
index 0 over a chain of levels reaches the first node of the last level. -/
theorem chain_replay (lvls : List (List String)) (hc : Chain lvls) :
    lvls.headD [] ≠ [] →
    replaySteps (genSteps lvls.dropLast 0) ((lvls.headD []).getD 0 "") =
      some ((lvls.getLastD []).getD 0 "") := by
  induction hc with
  | single lvl =>
      intro hne
      rfl
  | cons lvl nxt rest hlu hch ih =>
      intro hne
      simp only [List.headD_cons] at hne ih ⊢
      obtain ⟨x, tail, rfl⟩ : ∃ x tail, lvl = x :: tail := by
        cases lvl with
        | nil => exact absurd rfl hne
        | cons a b => exact ⟨a, b, rfl⟩
      obtain ⟨hnxt_ne, hhp⟩ := levelUp_head x tail nxt hlu
      have hdl : ((x :: tail) :: nxt :: rest).dropLast
          = (x :: tail) :: (nxt :: rest).dropLast := rfl
      rw [hdl, genSteps_cons_zero, List.getD_cons_zero, replaySteps_cons_right]
      rw [hhp]
      have e1 : ((x :: tail) :: nxt :: rest).getLastD [] = (nxt :: rest).getLastD [] := by
        simp [List.getLastD_eq_getLast?]
      rw [e1]
      simpa using ih hnxt_ne

/-- Zipping the two projections of a pair list recovers the list. -/
theorem zip_fst_snd {α β : Type} (l : List (α × β)) :
    (l.map Prod.fst).zip (l.map Prod.snd) = l := by
  induction l with
  | nil => rfl
  | cons a l ih => simp [ih]

/-- C7: for every file, when buildFromFile returns leaves, a root and the
inclusion proof for leaf index 0 (offsets "right" at even indices, "left" at
odd ones, an out-of-range sibling replaced by the node itself), replaying
that proof with verifyInclusion from leaves[0] reaches exactly the root. -/
theorem C7_inclusion_roundtrip (cs : Nat) (doc : String) (data : List Nat)
    (res : MerkleResult) (proof : InclusionProof)
    (hbuild : build_from_file cs doc data = some res)
    (hinc : res.inclusion = some proof) :
    verify_inclusion (res.leaves.headD "") proof res.merkleRoot = true := by
  by_cases hcs : cs = 0
  · rw [build_from_file, if_pos hcs] at hbuild
    exact absurd hbuild (by simp)
  simp only [build_from_file, if_neg hcs] at hbuild
  generalize hl : (chunk_data cs data).map hash_chunk = leaves at hbuild
  have hlne : leaves ≠ [] := by
    rw [← hl]
    simp
    exact chunk_data_ne_nil cs data
  rcases hbt : build_tree leaves with _ | ⟨tree, root⟩ <;> simp only [hbt] at hbuild
  · exact absurd hbuild (by simp)
  obtain rfl := Option.some.inj hbuild
  simp only [if_neg hlne] at hinc
  have h0 : ¬ (leaves.length ≤ 0) := by
    simpa [List.length_eq_zero] using hlne
  simp only [generate_inclusion_proof, if_neg h0] at hinc
  obtain rfl := Option.some.inj hinc
  simp only [verify_inclusion, zip_fst_snd]
  rcases hlv : leaves with _ | ⟨l1, tail⟩
  · exact absurd hlv hlne
  rcases tail with _ | ⟨l2, t2⟩
  · -- single leaf: tree = [[l1]], root = l1, no steps
    rw [hlv] at hbt
    simp only [build_tree] at hbt
    obtain ⟨rfl, rfl⟩ := Prod.mk.injEq .. |>.mp (Option.some.inj hbt)
    simp [genSteps, replaySteps]
  · -- two or more leaves: use the chain
    rw [hlv] at hbt
    simp only [build_tree] at hbt
    rcases hba : buildLevelsAux (l1 :: l2 :: t2).length (l1 :: l2 :: t2)
        with _ | lvls <;> simp only [hba] at hbt
    · exact absurd hbt (by simp)
    obtain ⟨rfl, rfl⟩ := Prod.mk.injEq .. |>.mp (Option.some.inj hbt)
    have hch := buildLevelsAux_chain (l1 :: l2 :: t2).length (l1 :: l2 :: t2) lvls
      hba (by simp) (by omega)
    have hrep := chain_replay ((l1 :: l2 :: t2) :: lvls) hch.1 (by simp)
    obtain ⟨r, hr⟩ := List.length_eq_one.mp hch.2
    simp only [List.headD_cons, List.getD_cons_zero] at hrep ⊢
    rw [hrep, hr]
    simp

set_option maxRecDepth 100000 in
/-- Witness for C7, at the three-byte file [0, 1, 2] with chunk size 1. -/
theorem C7_witness :
    verify_inclusion (c7res.leaves.headD "") c7proof c7res.merkleRoot = true :=
  C7_inclusion_roundtrip 1 "minutes.json" [0, 1, 2] c7res c7proof (by rfl) (by rfl)

/-- List.range' with step 2 enumerates the doubled indices. -/
theorem range'_two : ∀ (k s : Nat),
    List.range' s k 2 = (List.range k).map (fun i => s + 2 * i)
  | 0, _ => by simp
  | k + 1, s => by
      rw [List.range'_succ, range'_two k (s + 2), List.range_succ_eq_map]
      simp only [List.map_cons, List.map_map, List.cons.injEq]
      refine ⟨by simp, List.map_congr_left fun a _ => ?_⟩
      simp only [Function.comp_apply, Nat.succ_eq_add_one]
      omega

/-- omapM over a mapped list composes the functions. -/
theorem omapM_map {α β γ : Type} (f : β → Option γ) (g : α → β) :
    ∀ (l : List α), omapM f (l.map g) = omapM (fun a => f (g a)) l
  | [] => rfl
  | a :: l => by simp only [List.map_cons, omapM, omapM_map f g l]

/-- omapM only depends on the function's values on the list. -/
theorem omapM_congr {α β : Type} {f g : α → Option β} :
    ∀ {l : List α}, (∀ a ∈ l, f a = g a) → omapM f l = omapM g l
  | [], _ => rfl
  | a :: l, h => by
      have h1 : f a = g a := h a (by simp)
      have h2 : omapM f l = omapM g l :=
        omapM_congr (fun b hb => h b (List.mem_cons_of_mem a hb))
      simp only [omapM, h1, h2]

/-- The source level pass (Python's `range(0, len, 2)` loop) agrees with the
spec's description: the nodes `(2i, 2i+1)` are paired, the last node of an
odd-length level with itself. -/
theorem levelUp_eq_spec (lvl : List String) : levelUp lvl = specLevelUp lvl := by
  rw [levelUp, specLevelUp, range'_two, omapM_map]
  apply omapM_congr
  intro i _
  by_cases h : 2 * i + 1 < lvl.length <;> simp [specPairAt, h]

/-- The iterated level loop agrees with its spec-side counterpart. -/
theorem specBuildLevelsAux_eq : ∀ (fuel : Nat) (lvl : List String),
    specBuildLevelsAux fuel lvl = buildLevelsAux fuel lvl
  | 0, _ => rfl
  | fuel + 1, lvl => by
      simp only [buildLevelsAux, specBuildLevelsAux, levelUp_eq_spec]
      rcases h : specLevelUp lvl with _ | nxt <;>
        simp [h, specBuildLevelsAux_eq fuel]

/-- The source tree builder agrees with the spec-side builder. -/
theorem spec_build_tree_eq : ∀ (leaves : List String),
    build_tree leaves = spec_build_tree leaves
  | [] => rfl
  | [_] => rfl
  | l1 :: l2 :: t => by
      simp only [build_tree, spec_build_tree, specBuildLevelsAux_eq]

/-- C5: the Merkle tree is built level by level exactly as the spec
describes: the source builder equals the builder written from the spec's
words (adjacent nodes (2i, 2i+1) paired, the odd last node paired with
itself); each parent is the SHA-256 of the concatenation of the two
children's raw digests, hex-decoded before concatenation and hex-encoded
after hashing; and a single-leaf tree is its own root with no internal
levels. -/
theorem C5_tree_construction :
    (∀ lvl, levelUp lvl = specLevelUp lvl) ∧
    (∀ leaves, build_tree leaves = spec_build_tree leaves) ∧
    (∀ left right lb rb, fromHex left = some lb → fromHex right = some rb →
        hash_pair left right = some (sha256hex (lb ++ rb))) ∧
    (∀ l, build_tree [l] = some ([[l]], l)) :=
  ⟨levelUp_eq_spec, spec_build_tree_eq,
   fun _ _ _ _ h1 h2 => by simp [hash_pair, h1, h2],
   fun _ => rfl⟩

/-- Witness for C5, hashing the concrete pair "00", "ff". -/
theorem C5_witness : hash_pair "00" "ff" = some (sha256hex [0, 255]) :=
  C5_tree_construction.2.2.1 "00" "ff" [0] [255] (by decide) (by decide)

/-- Decoding a base64 character produced by the alphabet recovers its value. -/
theorem b64Val_b64CharOf : ∀ n, n < 64 → b64Val (b64CharOf n) = some n := by decide

/-- No alphabet character is the padding character. -/
theorem b64CharOf_ne_pad : ∀ n, n < 64 → b64CharOf n ≠ '=' := by decide

/-- Decoding an encoded byte list recovers the bytes. -/
theorem b64_groups_roundtrip : ∀ (bs : List Nat), (∀ b ∈ bs, b < 256) →
    b64DecodeGroups (b64EncodeGroups bs) = some bs
  | [], _ => rfl
  | [b0], h => by
      have hb0 : b0 < 256 := h b0 (by simp)
      simp only [b64EncodeGroups, b64DecodeGroups, and_self, if_true,
        b64Val_b64CharOf (b0 / 4) (by omega),
        b64Val_b64CharOf (b0 % 4 * 16) (by omega),
        Option.some.injEq, List.cons.injEq, and_true]
      omega
  | [b0, b1], h => by
      have hb0 : b0 < 256 := h b0 (by simp)
      have hb1 : b1 < 256 := h b1 (by simp)
      simp only [b64EncodeGroups, b64DecodeGroups]
      rw [if_neg (fun hcon => absurd hcon.1 (b64CharOf_ne_pad _ (by omega)))]
      simp only [and_self, if_true,
        b64Val_b64CharOf (b0 / 4) (by omega),
        b64Val_b64CharOf (b0 % 4 * 16 + b1 / 16) (by omega),
        b64Val_b64CharOf (b1 % 16 * 4) (by omega),
        Option.some.injEq, List.cons.injEq, and_true]
      omega
  | b0 :: b1 :: b2 :: rest, h => by
      have hb0 : b0 < 256 := h b0 (by simp)
      have hb1 : b1 < 256 := h b1 (by simp)
      have hb2 : b2 < 256 := h b2 (by simp)
      have hrest := b64_groups_roundtrip rest
        (fun b hb => h b (by simp [hb]))
      simp only [b64EncodeGroups, b64DecodeGroups]
      rw [if_neg (fun hcon => absurd hcon.1 (b64CharOf_ne_pad _ (by omega))),
        if_neg (fun hcon => absurd hcon.1 (b64CharOf_ne_pad _ (by omega)))]
      simp only [b64Val_b64CharOf (b0 / 4) (by omega),
        b64Val_b64CharOf (b0 % 4 * 16 + b1 / 16) (by omega),
        b64Val_b64CharOf (b1 % 16 * 4 + b2 / 64) (by omega),
        b64Val_b64CharOf (b2 % 64) (by omega), hrest,
        Option.some.injEq, List.cons.injEq]
      exact ⟨by omega, by omega, by omega, trivial⟩

/-- Decoding an encoded byte string recovers the bytes. -/
theorem b64_roundtrip (bs : List Nat) (h : ∀ b ∈ bs, b < 256) :
    b64decode (b64encode bs) = some bs :=
  b64_groups_roundtrip bs h

/-- Verifying a freshly produced signature with the matching public key
succeeds. -/
theorem verify_signature_roundtrip (scheme : SigScheme) (sk msg : List Nat) :
    verify_signature scheme msg (sign_data scheme sk msg)
      (get_public_key scheme sk) = true := by
  unfold verify_signature sign_data get_public_key
  rw [b64_roundtrip _ (scheme.sign_bytes sk msg), b64_roundtrip _ (scheme.pub_bytes sk)]
  simp [scheme.sign_length, scheme.pub_length, scheme.sign_verify]

/-- verify_credential succeeds when all three recomputed quantities match
and the stored signature verifies over the canonical serialization. -/
theorem verify_credential_of (scheme : SigScheme) (b3 : List Nat → List Nat)
    (c : Credential) (data : List Nat)
    (h1 : c.sha256 = compute_sha256 data)
    (h2 : c.blake3 = compute_blake3 b3 data)
    (h3 : c.size = data.length)
    (h4 : ∃ sig, c.signature = some sig ∧
        verify_signature scheme (utf8Bytes (canonical_json c)) sig
          c.signer.publicKey = true) :
    verify_credential scheme b3 c (some data) = true := by
  obtain ⟨sig, hs, hv⟩ := h4
  simp [verify_credential, h1, h2, h3, hs, hv]

/-- C3: the credential round trip.  Verifying a credential freshly created
over a file's bytes, against those same bytes, succeeds — for every signing
scheme, blake3 digest function, key, timestamp, target name and schema
name. -/
theorem C3_credential_roundtrip (scheme : SigScheme) (b3 : List Nat → List Nat)
    (sk : List Nat) (now targetName schemaName : String) (data : List Nat) :
    verify_credential scheme b3
      (create_credential scheme b3 sk now targetName schemaName data)
      (some data) = true := by
  apply verify_credential_of
  · rfl
  · rfl
  · rfl
  · exact ⟨_, rfl, verify_signature_roundtrip scheme sk _⟩

/-- C4: verify_credential returns true exactly when the recomputed sha256,
blake3 and size equal the stored fields and the stored signature verifies
over the canonical serialization against the embedded public key; a file
whose sha256 differs from the stored one is rejected, as is a credential
whose signature fails to verify — always by returning false, never by
raising (the function is total). -/
theorem C4_verify_credential_characterization (scheme : SigScheme)
    (b3 : List Nat → List Nat) (c : Credential) (data : List Nat) :
    (verify_credential scheme b3 c (some data) = true ↔
      (c.sha256 = compute_sha256 data ∧ c.blake3 = compute_blake3 b3 data ∧
       c.size = data.length ∧
       ∃ sig, c.signature = some sig ∧
         verify_signature scheme (utf8Bytes (canonical_json c)) sig
           c.signer.publicKey = true)) ∧
    (∀ data2, c.sha256 ≠ compute_sha256 data2 →
        verify_credential scheme b3 c (some data2) = false) ∧
    (∀ sig2, verify_signature scheme (utf8Bytes (canonical_json c)) sig2
          c.signer.publicKey = false →
        verify_credential scheme b3 { c with signature := some sig2 }
          (some data) = false) := by
  refine ⟨⟨?_, ?_⟩, ?_, ?_⟩
  · intro h
    simp only [verify_credential] at h
    by_cases h1 : c.sha256 ≠ compute_sha256 data ∨ c.blake3 ≠ compute_blake3 b3 data ∨
        c.size ≠ data.length
    · rw [if_pos h1] at h
      exact absurd h (by simp)
    · rw [if_neg h1] at h
      push_neg at h1
      rcases hs : c.signature with _ | sig <;> simp only [hs] at h
      · exact absurd h (by simp)
      · exact ⟨h1.1, h1.2.1, h1.2.2, sig, rfl, h⟩
  · rintro ⟨h1, h2, h3, sig, hs, hv⟩
    simp [verify_credential, h1, h2, h3, hs, hv]
  · intro data2 hne
    simp [verify_credential, hne]
  · intro sig2 hv
    have hcan : canonical_json { c with signature := some sig2 } = canonical_json c := by
      cases c
      rfl
    simp only [verify_credential]
    split
    · rfl
    · simp [hcan, hv]

/-- Witness for C4: a credential whose stored sha256 differs from the file's
recomputed hash is rejected, and so is one carrying an unverifiable
signature. -/
theorem C4_witness :
    verify_credential constSig zeroB3 cxCred (some [9]) = false ∧
    verify_credential constSig zeroB3 { cxCred with signature := some "!" }
      (some [9]) = false :=
  ⟨(C4_verify_credential_characterization constSig zeroB3 cxCred [9]).2.1 [9]
      (by decide),
   (C4_verify_credential_characterization constSig zeroB3 cxCred [9]).2.2 "!"
      (by decide)⟩

/-- C1: the code contradicts the claim.  update_manifest rebuilds the
manifest through create_manifest, which always returns an empty artifacts
list (it copies only createdAt from the manifest on disk), so every call
leaves exactly one entry in the manifest: entries recorded by earlier
updateManifest calls for other fileNames are discarded, not preserved.  The
universal part shows that after any update the manifest holds exactly one
entry, while its createdAt is the one create_manifest preserves; the
concrete part replays ingest followed by the next build step and shows the
transcript entry recorded by the first call is gone after the second,
although its fileName differs, while createdAt does survive. -/
theorem C1_update_manifest_discards_prior_entries :
    (∀ slug typ fileName metadata now dir existing,
        (update_manifest slug typ fileName metadata now dir existing).artifacts.length = 1 ∧
        (update_manifest slug typ fileName metadata now dir existing).createdAt =
          (create_manifest slug now existing).createdAt) ∧
    demoManifest1.artifacts.filter
        (fun a => dget a "fileName" == some "transcript.normalized.json") ≠ [] ∧
    demoManifest2.artifacts.filter
        (fun a => dget a "fileName" == some "transcript.normalized.json") = [] ∧
    demoManifest2.createdAt = demoManifest1.createdAt := by
  refine ⟨?_, by decide, by decide, by decide⟩
  intro slug typ fileName metadata now dir existing
  exact ⟨rfl, rfl⟩

/-- C2 counterexample: with the stored credential and proof artifacts intact
but the minutes.json document missing from disk, a FileNotFoundError is
raised inside the verification path (one of the claim's enumerated exception
cases), yet verify_artifacts returns the stored sha256 and merkleRoot as
docHash and localRoot, not empty strings. -/
theorem C2_counterexample :
    (verify_artifacts constSig zeroB3 false (fun _ _ => none) cxFiles).valid = false ∧
    (verify_artifacts constSig zeroB3 false (fun _ _ => none) cxFiles).docHash = "deadbeef" ∧
    (verify_artifacts constSig zeroB3 false (fun _ _ => none) cxFiles).localRoot = "feedface" ∧
    ("deadbeef" : String) ≠ "" ∧ ("feedface" : String) ≠ "" := by
  refine ⟨rfl, rfl, rfl, by decide, by decide⟩

/-- C2 as amended: valid is always the conjunction of the credential check
and the proof check; an exception reaching verify_artifacts itself — the
stored credential or proof artifact missing or unparseable — yields the
all-empty invalid result; exceptions inside the two checks are absorbed by
those checks as false, the result then carrying the stored sha256 and
merkleRoot; no exception ever propagates (the function is total). -/
theorem C2_verify_artifacts (scheme : SigScheme) (b3 : List Nat → List Nat)
    (en : Bool) (av : String → Option String → Option String)
    (files : SessionFiles) :
    (∀ cred proof, files.minutesCred = some cred → files.minutesProof = some proof →
        (verify_artifacts scheme b3 en av files).valid =
          (verify_credential scheme b3 cred files.minutes &&
           verify_proof files.minutes proof) ∧
        (verify_artifacts scheme b3 en av files).docHash = cred.sha256 ∧
        (verify_artifacts scheme b3 en av files).localRoot = proof.merkleRoot) ∧
    ((files.minutesCred = none ∨ files.minutesProof = none) →
        verify_artifacts scheme b3 en av files = ⟨false, "", none, "", none⟩) := by
  constructor
  · intro cred proof h1 h2
    refine ⟨?_, ?_, ?_⟩ <;> simp [verify_artifacts, h1, h2]
  · intro h
    rcases h with h | h
    · simp [verify_artifacts, h]
    · cases hc : files.minutesCred <;> simp [verify_artifacts, hc, h]

/-- Witness for the amended C2, with all artifacts present and anchoring
enabled. -/
theorem C2_witness :
    (verify_artifacts constSig zeroB3 true (fun _ _ => none) wFiles).valid =
      (verify_credential constSig zeroB3 cxCred wFiles.minutes &&
       verify_proof wFiles.minutes cxProof) ∧
    (verify_artifacts constSig zeroB3 true (fun _ _ => none) wFiles).docHash =
      cxCred.sha256 ∧
    (verify_artifacts constSig zeroB3 true (fun _ _ => none) wFiles).localRoot =
      cxProof.merkleRoot :=
  (C2_verify_artifacts constSig zeroB3 true (fun _ _ => none) wFiles).1
    cxCred cxProof rfl rfl

end VM
